import Mathlib

/-!
Verification of the sat-vocab daily vocabulary trainer.

This file is a shallow embedding of the core logic of the repository:

* `src/app/page.tsx` — day-seeded word selection (`seedRandom`, `getDailyWords`),
  the per-word phase machine (`updateWordState`, `assessDefinition`,
  `assessSentence`, `dismissWord`), and local persistence
  (`getLocalState`, `saveLocalState`);
* `src/app/api/assess/route.ts` — the in-memory per-IP rate limiter
  (`isRateLimited`).

Conventions of the embedding:

* JavaScript 32-bit integer arithmetic (`Math.imul`, `^`, `>>>`, `|0`) is
  modelled on `Nat` bit patterns reduced modulo `2^32`; the signed view is
  never observed by the program, only the bit pattern is.
* The browser clock (`getDayKey`) is real time and is therefore modelled by
  passing the day key as an explicit argument, exactly as the specification's
  `selectDaily(bank, dayKey, count)` contract does.
* `Array.prototype.sort` is called with the comparator `() => rng() - 0.5`,
  which is not a consistent comparison function, so per ECMA-262 §23.1.3.30
  the resulting order is implementation-defined.  We model two conformant
  engine behaviours: a stable insertion sort (`rngInsertionSort`, used as the
  reference engine) and a stable top-down merge sort (`rngMergeSort`, a second
  engine).  Each draws one value from the seeded generator per comparison,
  exactly as the source comparator does.
* Asynchronous remote calls are modelled by their outcome: either the parsed
  response value, or the thrown/rejected case (the `catch` branch).
-/

namespace SatVocab

/-- A vocabulary entry, from `interface Word` in `src/app/page.tsx`
(fields `word`, `definition`, `connotation`, `roots`, `tier`). -/
structure Word where
  word : String
  definition : String
  connotation : String
  roots : String
  tier : Nat
deriving DecidableEq

/-- One step of the seeded generator from `seedRandom` in `src/app/page.tsx`:

```js
h = Math.imul(h ^ (h >>> 16), 0x45d9f3b);
h = Math.imul(h ^ (h >>> 13), 0x45d9f3b);
h = (h ^ (h >>> 16)) >>> 0;
```

The argument and result are the 32-bit pattern of `h`; the JS closure then
returns `h / 4294967296`, so the drawn value in `[0,1)` is the returned
pattern divided by `2^32`. -/
def rngStep (h : Nat) : Nat :=
  let h1 := (((h ^^^ (h >>> 16)) * 0x45d9f3b) % 4294967296)
  let h2 := (((h1 ^^^ (h1 >>> 13)) * 0x45d9f3b) % 4294967296)
  h2 ^^^ (h2 >>> 16)

/-- The seed derivation in `seedRandom`: `h = Math.imul(31, h) + seed.charCodeAt(i) | 0`
folded over the characters of the seed, starting from `0`.  On bit patterns
this is `(31 * h + code) mod 2^32`. -/
def seedHash (seed : String) : Nat :=
  seed.data.foldl (fun h c => (31 * h + c.toNat) % 4294967296) 0

/-- The comparator `() => rng() - 0.5` is negative exactly when the drawn
pattern is below `2^31` (`rng() < 0.5`).  `rngInsert` inserts `x` into `l`,
drawing one comparator value per comparison: a negative draw places `x` in
front of the element compared against, otherwise the scan moves on.  This is
one ECMAScript-conformant behaviour of `Array.prototype.sort` under the
inconsistent comparator (the insertion-sort engine). -/
def rngInsert (x : Word) : List Word → Nat → List Word × Nat
  | [], h => ([x], h)
  | y :: ys, h =>
    let h2 := rngStep h
    if h2 < 2147483648 then
      (x :: y :: ys, h2)
    else
      ((rngInsert x ys h2).1.cons y, (rngInsert x ys h2).2)

/-- Insertion-sort engine for `[...allWords].sort(() => rng() - 0.5)`:
threads the generator state through successive insertions. -/
def rngInsertionSort : List Word → Nat → List Word × Nat
  | [], h => ([], h)
  | x :: xs, h =>
    let p := rngInsertionSort xs h
    rngInsert x p.1 p.2

/-- Merge step of a second conformant engine (top-down merge sort), drawing
one comparator value per comparison like the source comparator does.  Fueled
so that it computes by kernel reduction; `fuel = total length` suffices. -/
def rngMerge : Nat → List Word → List Word → Nat → List Word × Nat
  | 0, xs, ys, h => (xs ++ ys, h)
  | _ + 1, [], ys, h => (ys, h)
  | _ + 1, x :: xs, [], h => (x :: xs, h)
  | f + 1, x :: xs, y :: ys, h =>
    let h2 := rngStep h
    if h2 < 2147483648 then
      ((rngMerge f xs (y :: ys) h2).1.cons x, (rngMerge f xs (y :: ys) h2).2)
    else
      ((rngMerge f (x :: xs) ys h2).1.cons y, (rngMerge f (x :: xs) ys h2).2)

/-- Top-down merge-sort engine for the same source line, a second
ECMAScript-conformant behaviour of `Array.prototype.sort` under the
inconsistent comparator.  Fueled; `fuel = length` suffices. -/
def rngMergeSort : Nat → List Word → Nat → List Word × Nat
  | 0, l, h => (l, h)
  | f + 1, l, h =>
    if l.length ≤ 1 then (l, h)
    else
      let a := rngMergeSort f (l.take (l.length / 2)) h
      let b := rngMergeSort f (l.drop (l.length / 2)) a.2
      rngMerge (a.1.length + b.1.length) a.1 b.1 b.2

/-- `getDailyWords` from `src/app/page.tsx`:

```js
const rng = seedRandom(day);
const shuffled = [...allWords].sort(() => rng() - 0.5);
return shuffled.slice(0, count);
```

with the day key passed explicitly (see the header note) and the sort
modelled by the insertion-sort engine. -/
def getDailyWords (bank : List Word) (dayKey : String) (count : Nat) : List Word :=
  ((rngInsertionSort bank (seedHash dayKey)).1).take count

/-- The same source function compiled against the merge-sort engine: what a
different machine whose `Array.prototype.sort` merges may compute. -/
def getDailyWordsMergeEngine (bank : List Word) (dayKey : String) (count : Nat) : List Word :=
  ((rngMergeSort bank.length bank (seedHash dayKey)).1).take count

theorem rngInsert_perm (x : Word) (l : List Word) (h : Nat) :
    (rngInsert x l h).1.Perm (x :: l) := by
  induction l generalizing h with
  | nil => simp [rngInsert]
  | cons y ys ih =>
    simp only [rngInsert]
    split
    · exact List.Perm.refl _
    · exact (List.Perm.cons y (ih (rngStep h))).trans (List.Perm.swap x y ys)

theorem rngInsertionSort_perm (l : List Word) (h : Nat) :
    (rngInsertionSort l h).1.Perm l := by
  induction l generalizing h with
  | nil => simp [rngInsertionSort]
  | cons x xs ih =>
    simp only [rngInsertionSort]
    exact (rngInsert_perm x _ _).trans (List.Perm.cons x (ih h))

theorem take_of_length_le' {α : Type} {l : List α} {n : Nat} (h : l.length ≤ n) :
    l.take n = l := by
  induction l generalizing n with
  | nil => simp
  | cons a t ih =>
    cases n with
    | zero => simp at h
    | succ m => simpa using ih (by simpa using h)

/-- A four-entry bank used to exhibit concrete behaviour. -/
def bankEx : List Word :=
  [⟨"alpha", "", "", "", 1⟩, ⟨"beta", "", "", "", 1⟩,
   ⟨"gamma", "", "", "", 1⟩, ⟨"delta", "", "", "", 1⟩]

/-- C1, counterexample: the claim promises the identical ordered output "on any
machine", but the source shuffles with `sort(() => rng() - 0.5)`, an
inconsistent comparator, for which ECMA-262 §23.1.3.30 leaves the sort order
implementation-defined.  Two conformant engines (insertion sort and merge
sort), given the very same `(bank, dayKey, count)` and the very same seeded
generator, produce different ordered outputs, so output identity across
machines fails. -/
theorem getDailyWords_engine_counterexample :
    getDailyWords bankEx "2024-03-01" 5 ≠ getDailyWordsMergeEngine bankEx "2024-03-01" 5 := by
  decide

/-- C1, amended: on a fixed engine (a fixed `Array.prototype.sort`
implementation, here the insertion-sort model), `getDailyWords` is
deterministic: identical `(bank, dayKey, count)` inputs always produce the
identical ordered output, with no dependence on network or stored state —
the embedding is a pure function of exactly these three inputs. -/
theorem getDailyWords_deterministic (b₁ b₂ : List Word) (k₁ k₂ : String) (c₁ c₂ : Nat)
    (hb : b₁ = b₂) (hk : k₁ = k₂) (hc : c₁ = c₂) :
    getDailyWords b₁ k₁ c₁ = getDailyWords b₂ k₂ c₂ := by
  subst hb; subst hk; subst hc; rfl

theorem getDailyWords_deterministic_witness :
    bankEx = bankEx ∧ getDailyWords bankEx "2024-03-01" 5 = getDailyWords bankEx "2024-03-01" 5 :=
  ⟨rfl, getDailyWords_deterministic bankEx bankEx "2024-03-01" "2024-03-01" 5 5 rfl rfl rfl⟩

/-- C5: calling `getDailyWords` with `count` greater than the bank size
returns the whole bank in the shuffled order, without error: `slice(0, count)`
on the shuffled array returns all of it, and the shuffled array is a
permutation of the bank. -/
theorem getDailyWords_clamp (bank : List Word) (dayKey : String) (count : Nat)
    (h : bank.length < count) :
    getDailyWords bank dayKey count = (rngInsertionSort bank (seedHash dayKey)).1 ∧
      (getDailyWords bank dayKey count).Perm bank := by
  have hperm := rngInsertionSort_perm bank (seedHash dayKey)
  have hlen : (rngInsertionSort bank (seedHash dayKey)).1.length ≤ count := by
    rw [hperm.length_eq]; omega
  refine ⟨take_of_length_le' hlen, ?_⟩
  rw [getDailyWords, take_of_length_le' hlen]
  exact hperm

theorem getDailyWords_clamp_witness :
    bankEx.length < 9 ∧
      (getDailyWords bankEx "2024-03-01" 9 = (rngInsertionSort bankEx (seedHash "2024-03-01")).1 ∧
        (getDailyWords bankEx "2024-03-01" 9).Perm bankEx) :=
  ⟨by decide, getDailyWords_clamp bankEx "2024-03-01" 9 (by decide)⟩

/-! ## Per-word state and the client-side transitions (`src/app/page.tsx`) -/

/-- The `phase` union type of `interface WordState`:
`"define" | "revealed" | "sentence" | "feedback" | "dismissed"`. -/
inductive Phase where
  | define
  | revealed
  | sentence
  | feedback
  | dismissed
deriving DecidableEq

/-- The definition-mode assessment payload `{score, feedback}`.  The remote
judge is asked for an integer score, and the client's sentinel is the integer
`0`, so scores are embedded as `Int`; the client itself never inspects the
number's shape (see C3). -/
structure DefFeedback where
  score : Int
  feedback : String
deriving DecidableEq

/-- The sentence-mode assessment payload `{score, feedback, improved}`. -/
structure SentFeedback where
  score : Int
  feedback : String
  improved : String
deriving DecidableEq

/-- `interface WordState`.  Every field is optional, matching the JS object:
`prev[word]` may be absent, and spreads build objects holding any subset of
the fields (`phase` itself is absent in `{ ...undefined, ...update }` when the
update names no phase).  A value with `none` everywhere is the absent-field
object; a `Partial<WordState>` update is represented the same way, `none`
meaning the key is not named in the update. -/
structure WordState where
  phase : Option Phase := none
  userDefinition : Option String := none
  definitionFeedback : Option DefFeedback := none
  userSentence : Option String := none
  sentenceFeedback : Option SentFeedback := none
deriving DecidableEq

/-- The `wordStates` record: a JS object keyed by the word's term. -/
def StatesMap : Type := String → Option WordState

/-- Left-biased field choice: the JS spread `{...base, ...upd}` takes `upd`'s
value when the key is present there, `base`'s otherwise. -/
def orOpt {α : Type} : Option α → Option α → Option α
  | some a, _ => some a
  | none, b => b

/-- `{ ...base, ...upd }` on word states, field by field. -/
def spreadWS (base upd : WordState) : WordState where
  phase := orOpt upd.phase base.phase
  userDefinition := orOpt upd.userDefinition base.userDefinition
  definitionFeedback := orOpt upd.definitionFeedback base.definitionFeedback
  userSentence := orOpt upd.userSentence base.userSentence
  sentenceFeedback := orOpt upd.sentenceFeedback base.sentenceFeedback

/-- `updateWordState` from `src/app/page.tsx`:

```js
const next = { ...prev, [word]: { ...prev[word], ...update } };
```

(The subsequent `persistState(next)` writes `next` to storage; the returned
map is the new in-memory state, which is what the frame claim is about.) -/
def updateWordState (prev : StatesMap) (w : String) (update : WordState) : StatesMap :=
  fun k => if k = w then some (spreadWS ((prev w).getD {}) update) else prev k

/-- Outcome of the definition-mode `fetch`/`res.json()` pair: `ok` holds the
parsed response body (stored as-is by the source), `err` is the thrown or
rejected case handled by the `catch` branch. -/
inductive DefCallResult where
  | ok (fb : DefFeedback)
  | err
deriving DecidableEq

/-- Outcome of the sentence-mode call, same shape. -/
inductive SentCallResult where
  | ok (fb : SentFeedback)
  | err
deriving DecidableEq

/-- The sentinel stored by `assessDefinition`'s `catch` branch. -/
def defFailFeedback : DefFeedback :=
  ⟨0, "Could not assess — check your connection."⟩

/-- The sentinel stored by `assessSentence`'s `catch` branch. -/
def sentFailFeedback : SentFeedback :=
  ⟨0, "Could not assess — check your connection.", ""⟩

/-- `assessDefinition` from `src/app/page.tsx`, by call outcome: on success
the parsed `data` is stored unchanged as `definitionFeedback` and the phase
becomes `"revealed"`; on a throw the same transition happens with the
sentinel feedback. -/
def assessDefinition (prev : StatesMap) (w : String) (userDef : String) :
    DefCallResult → StatesMap
  | .ok fb =>
    updateWordState prev w
      { phase := some .revealed, userDefinition := some userDef,
        definitionFeedback := some fb }
  | .err =>
    updateWordState prev w
      { phase := some .revealed, userDefinition := some userDef,
        definitionFeedback := some defFailFeedback }

/-- `assessSentence` from `src/app/page.tsx`, by call outcome: the phase
becomes `"feedback"` either way, with the parsed `data` or the sentinel as
`sentenceFeedback`. -/
def assessSentence (prev : StatesMap) (w : String) (userSentence : String) :
    SentCallResult → StatesMap
  | .ok fb =>
    updateWordState prev w
      { phase := some .feedback, userSentence := some userSentence,
        sentenceFeedback := some fb }
  | .err =>
    updateWordState prev w
      { phase := some .feedback, userSentence := some userSentence,
        sentenceFeedback := some sentFailFeedback }

/-- The continuation inside `dismissWord`'s `.then`: if the (just updated)
state has a `definitionFeedback` whose `score >= 4`, replace the entry with
`{ ...state, phase: "dismissed" }`; otherwise leave the map unchanged. -/
def dismissStep (prev : StatesMap) (w : String) : StatesMap :=
  match prev w with
  | none => prev
  | some st =>
    match st.definitionFeedback with
    | none => prev
    | some fb =>
      if 4 ≤ fb.score then
        fun k => if k = w then some { st with phase := some .dismissed } else prev k
      else prev

/-- `dismissWord` from `src/app/page.tsx`: run `assessDefinition`, then the
conditional dismissal continuation on the resulting map. -/
def dismissWord (prev : StatesMap) (w : String) (userDef : String) (r : DefCallResult) :
    StatesMap :=
  dismissStep (assessDefinition prev w userDef r) w

/-- The phase recorded for `w`, if `w` has an entry with a phase. -/
def phaseAt (m : StatesMap) (w : String) : Option Phase :=
  (m w).bind WordState.phase

/-- C2: submitting a word in phase `define` through the "I know this one"
trigger lands in `dismissed` exactly when the score returned by the
assessment is at least 4; a returned score of at most 3 leaves the word in
`revealed`. -/
theorem dismiss_threshold_guard (prev : StatesMap) (w userDef : String) (fb : DefFeedback) :
    (phaseAt (dismissWord prev w userDef (.ok fb)) w = some .dismissed ↔ 4 ≤ fb.score) ∧
      (fb.score ≤ 3 → phaseAt (dismissWord prev w userDef (.ok fb)) w = some .revealed) := by
  have hafter : (assessDefinition prev w userDef (.ok fb)) w =
      some (spreadWS ((prev w).getD {}) ⟨some .revealed, some userDef, some fb, none, none⟩) := by
    simp [assessDefinition, updateWordState]
  constructor
  · by_cases hs : 4 ≤ fb.score
    · simp [dismissWord, dismissStep, hafter, spreadWS, orOpt, hs, phaseAt]
    · simp [dismissWord, dismissStep, hafter, spreadWS, orOpt, hs, phaseAt]
  · intro h3
    have hs : ¬ 4 ≤ fb.score := by omega
    simp [dismissWord, dismissStep, hafter, spreadWS, orOpt, hs, phaseAt]

theorem dismiss_threshold_guard_witness :
    ((2 : Int) ≤ 3 ∧
      phaseAt (dismissWord (fun _ => none) "alpha" "a guess" (.ok ⟨2, "close"⟩)) "alpha" =
        some .revealed) ∧
      phaseAt (dismissWord (fun _ => none) "alpha" "a guess" (.ok ⟨5, "nailed it"⟩)) "alpha" =
        some .dismissed :=
  ⟨⟨by decide,
    (dismiss_threshold_guard (fun _ => none) "alpha" "a guess" ⟨2, "close"⟩).2 (by decide)⟩,
    (dismiss_threshold_guard (fun _ => none) "alpha" "a guess" ⟨5, "nailed it"⟩).1.mpr (by decide)⟩

/-- C3, counterexample: the client stores the parsed response without any
score validation.  A response whose score is 7 — outside `[1,5]` — is kept
verbatim as the word's `definitionFeedback` (not replaced by the failure
sentinel), and the `>= 4` dismissal guard then fires on it, so the
out-of-range score is used structurally instead of being treated as a call
failure. -/
theorem no_score_validation_counterexample :
    ((assessDefinition (fun _ => none) "alpha" "a guess" (.ok ⟨7, "wild"⟩)) "alpha").bind
        WordState.definitionFeedback = some ⟨7, "wild"⟩ ∧
      phaseAt (dismissWord (fun _ => none) "alpha" "a guess" (.ok ⟨7, "wild"⟩)) "alpha" =
        some .dismissed := by
  constructor
  · rfl
  · rfl

/-- C3, amended: the client performs no validation of a returned score.  Any
successfully parsed response body is stored as-is as `definitionFeedback`
(and used structurally by the `>= 4` dismissal guard); only a throw of the
`fetch`/`res.json()` pair is treated as a failure, in which case the sentinel
`{score: 0, ...}` is stored instead. -/
theorem assess_stores_raw_score (prev : StatesMap) (w userDef : String) (fb : DefFeedback) :
    ((assessDefinition prev w userDef (.ok fb)) w).bind WordState.definitionFeedback = some fb ∧
      ((assessDefinition prev w userDef .err) w).bind WordState.definitionFeedback =
        some defFailFeedback := by
  constructor
  · simp [assessDefinition, updateWordState, spreadWS, orOpt]
  · simp [assessDefinition, updateWordState, spreadWS, orOpt]

/-- C4: if the assessment call throws or rejects, the word still advances
past the submission step — to `revealed` for a definition, to `feedback` for
a sentence — with the sentinel score `0` and a non-empty fallback message
(empty `improved` sample in sentence mode); it is never left in the
pre-transition phase because of the failure. -/
theorem failure_substitution (prev : StatesMap) (w userDef userSentence : String)
    (_hd : userDef ≠ "") (_hs : userSentence ≠ "") :
    phaseAt (assessDefinition prev w userDef .err) w = some .revealed ∧
      ((assessDefinition prev w userDef .err) w).bind WordState.definitionFeedback =
        some defFailFeedback ∧
      defFailFeedback.score = 0 ∧ defFailFeedback.feedback ≠ "" ∧
      phaseAt (assessSentence prev w userSentence .err) w = some .feedback ∧
      ((assessSentence prev w userSentence .err) w).bind WordState.sentenceFeedback =
        some sentFailFeedback ∧
      sentFailFeedback.score = 0 ∧ sentFailFeedback.feedback ≠ "" := by
  refine ⟨?_, ?_, rfl, by decide, ?_, ?_, rfl, by decide⟩
  · simp [assessDefinition, updateWordState, spreadWS, orOpt, phaseAt]
  · simp [assessDefinition, updateWordState, spreadWS, orOpt]
  · simp [assessSentence, updateWordState, spreadWS, orOpt, phaseAt]
  · simp [assessSentence, updateWordState, spreadWS, orOpt]

theorem failure_substitution_witness :
    ("a guess" ≠ "" ∧ "a sentence" ≠ "") ∧
      (phaseAt (assessDefinition (fun _ => none) "alpha" "a guess" .err) "alpha" =
          some .revealed ∧
        ((assessDefinition (fun _ => none) "alpha" "a guess" .err) "alpha").bind
            WordState.definitionFeedback = some defFailFeedback ∧
        defFailFeedback.score = 0 ∧ defFailFeedback.feedback ≠ "" ∧
        phaseAt (assessSentence (fun _ => none) "alpha" "a sentence" .err) "alpha" =
          some .feedback ∧
        ((assessSentence (fun _ => none) "alpha" "a sentence" .err) "alpha").bind
            WordState.sentenceFeedback = some sentFailFeedback ∧
        sentFailFeedback.score = 0 ∧ sentFailFeedback.feedback ≠ "") :=
  ⟨⟨by decide, by decide⟩,
    failure_substitution (fun _ => none) "alpha" "a guess" "a sentence"
      (by decide) (by decide)⟩

/-- C9: `updateWordState` changes the map at most at the updated word's key;
every other word's state is untouched, and any field the partial update does
not name keeps its prior value (the absent-entry case reading as the
all-absent object). -/
theorem updateWordState_frame (prev : StatesMap) (w : String) (u : WordState) :
    (∀ k, k ≠ w → updateWordState prev w u k = prev k) ∧
      ∃ st, updateWordState prev w u w = some st ∧
        (u.phase = none → st.phase = ((prev w).getD {}).phase) ∧
        (u.userDefinition = none → st.userDefinition = ((prev w).getD {}).userDefinition) ∧
        (u.definitionFeedback = none →
          st.definitionFeedback = ((prev w).getD {}).definitionFeedback) ∧
        (u.userSentence = none → st.userSentence = ((prev w).getD {}).userSentence) ∧
        (u.sentenceFeedback = none →
          st.sentenceFeedback = ((prev w).getD {}).sentenceFeedback) := by
  refine ⟨fun k hk => by simp [updateWordState, hk],
    ⟨spreadWS ((prev w).getD {}) u, by simp [updateWordState], ?_, ?_, ?_, ?_, ?_⟩⟩
  all_goals intro h; simp [spreadWS, h, orOpt]

theorem updateWordState_frame_witness :
    ("beta" ≠ "alpha" ∧
      updateWordState (fun _ => none) "alpha" { phase := some Phase.revealed } "beta" =
        (fun _ => (none : Option WordState)) "beta") ∧
      ({ phase := some Phase.revealed : WordState }.userSentence = none ∧
        ∃ st, updateWordState (fun _ => none) "alpha" { phase := some Phase.revealed } "alpha" =
            some st ∧ st.userSentence = (((fun _ => none : StatesMap) "alpha").getD {}).userSentence) := by
  refine ⟨⟨by decide, ?_⟩, ⟨rfl, ?_⟩⟩
  · exact (updateWordState_frame (fun _ => none) "alpha" { phase := some Phase.revealed }).1
      "beta" (by decide)
  · obtain ⟨st, hst, -, -, -, hus, -⟩ :=
      (updateWordState_frame (fun _ => none) "alpha" { phase := some Phase.revealed }).2
    exact ⟨st, hst, hus rfl⟩

/-! ## The phase machine as a step relation

The UI (`WordCard` in `src/app/page.tsx`) renders each trigger only in one
phase, so the store can move between phases only along these edges:

* `define → revealed` — submitting a definition (`assessDefinition`, reached
  from the `"define"` card, including the first half of `dismissWord`);
* `revealed → dismissed` — the second half of `dismissWord` fires on the
  already-revealed state when the returned score is at least 4;
* `revealed → sentence` — the `onMoveSentence` button of the `"revealed"` card;
* `sentence → feedback` — submitting a sentence (`assessSentence`, reached
  only from the `"sentence"` card).
-/

/-- The phase edges realisable through the UI triggers. -/
def canStep : Phase → Phase → Bool
  | .define, .revealed => true
  | .revealed, .dismissed => true
  | .revealed, .sentence => true
  | .sentence, .feedback => true
  | _, _ => false

/-- Reachability along `canStep` edges that never visits a phase in the
avoided set (the start itself is not constrained). -/
inductive ReachesAvoiding (bad : Phase → Bool) : Phase → Phase → Prop where
  | refl (a : Phase) : ReachesAvoiding bad a a
  | step {a b c : Phase} : canStep a b = true → bad b = false →
      ReachesAvoiding bad b c → ReachesAvoiding bad a c

theorem reaches_from_dismissed {bad : Phase → Bool} :
    ∀ {a p : Phase}, ReachesAvoiding bad a p → a = .dismissed → p = .dismissed := by
  intro a p h
  induction h with
  | refl => exact fun h => h
  | @step a b c hs _ _ _ =>
    intro ha
    subst ha
    cases b <;> simp [canStep] at hs

theorem reaches_from_revealed_avoiding_sentence :
    ∀ {a p : Phase}, ReachesAvoiding (fun q => decide (q = .sentence)) a p →
      a = .revealed → p = .revealed ∨ p = .dismissed := by
  intro a p h
  induction h with
  | refl => exact fun h => Or.inl h
  | @step a b c hs hb hrest _ =>
    intro ha
    subst ha
    cases b <;> simp [canStep] at hs hb ⊢
    exact Or.inr (reaches_from_dismissed hrest rfl)

/-- C8: under the UI-realisable step relation, a word starting in `define`
can reach `feedback` only by passing through `revealed` and then `sentence`:
there is no path from `define` to `feedback` avoiding `revealed`, none
avoiding `sentence`, not even a path to `sentence` avoiding `revealed`, and
no direct `define → feedback` edge — while the canonical
`define → revealed → sentence → feedback` path does exist. -/
theorem phase_order_invariant :
    (¬ ReachesAvoiding (fun q => decide (q = .revealed)) .define .feedback) ∧
      (¬ ReachesAvoiding (fun q => decide (q = .sentence)) .define .feedback) ∧
      (¬ ReachesAvoiding (fun q => decide (q = .revealed)) .define .sentence) ∧
      canStep .define .feedback = false ∧
      ReachesAvoiding (fun _ => false) .define .feedback := by
  refine ⟨?_, ?_, ?_, rfl, ?_⟩
  · intro h
    cases h with
    | @step _ b _ hs hb hrest =>
      cases b <;> simp [canStep] at hs hb
  · intro h
    cases h with
    | @step _ b _ hs hb hrest =>
      cases b <;> simp [canStep] at hs hb
      rcases reaches_from_revealed_avoiding_sentence hrest rfl with h | h <;> cases h
  · intro h
    cases h with
    | @step _ b _ hs hb hrest =>
      cases b <;> simp [canStep] at hs hb
  · exact .step (b := .revealed) rfl rfl
      (.step (b := .sentence) rfl rfl (.step (b := .feedback) rfl rfl (.refl _)))

/-! ## The per-IP rate limiter (`src/app/api/assess/route.ts`) -/

/-- An entry of the module-level `rateMap`: `{count, resetAt}`. -/
structure RateEntry where
  count : Nat
  resetAt : Nat
deriving DecidableEq

/-- The module-level `rateMap`, keyed by IP. -/
def RateMap : Type := String → Option RateEntry

/-- `RATE_LIMIT = 30` requests per window. -/
def RATE_WINDOW_MS : Nat := 60000

/-- `isRateLimited` from `src/app/api/assess/route.ts`, with `Date.now()`
passed as `now` and the map threaded explicitly:

```js
if (!entry || now > entry.resetAt) { rateMap.set(ip, {count: 1, resetAt: now + RATE_WINDOW_MS}); return false; }
entry.count++;
if (entry.count > RATE_LIMIT) return true;
return false;
```
-/
def isRateLimited (ip : String) (now : Nat) (m : RateMap) : Bool × RateMap :=
  match m ip with
  | none => (false, fun k => if k = ip then some ⟨1, now + RATE_WINDOW_MS⟩ else m k)
  | some e =>
    if e.resetAt < now then
      (false, fun k => if k = ip then some ⟨1, now + RATE_WINDOW_MS⟩ else m k)
    else
      (decide (30 < e.count + 1), fun k => if k = ip then some ⟨e.count + 1, e.resetAt⟩ else m k)

/-- Successive calls for one IP at the given times, collecting the
`isRateLimited` verdicts and the final map. -/
def runCalls (ip : String) : RateMap → List Nat → List Bool × RateMap
  | m, [] => ([], m)
  | m, t :: ts =>
    let p := isRateLimited ip t m
    let q := runCalls ip p.2 ts
    (p.1 :: q.1, q.2)

theorem runCalls_inWindow (ip : String) (r : Nat) (ts : List Nat) :
    ∀ (m : RateMap) (c : Nat), m ip = some ⟨c, r⟩ → (∀ t ∈ ts, t ≤ r) →
      (runCalls ip m ts).1 = (List.range ts.length).map (fun i => decide (30 < c + i + 1)) ∧
        (runCalls ip m ts).2 ip = some ⟨c + ts.length, r⟩ := by
  induction ts with
  | nil => intro m c hm _; simpa [runCalls] using hm
  | cons t ts ih =>
    intro m c hm hin
    have hnow : ¬ r < t := by
      have := hin t (by simp)
      omega
    have hstep : isRateLimited ip t m =
        (decide (30 < c + 1), fun k => if k = ip then some ⟨c + 1, r⟩ else m k) := by
      simp [isRateLimited, hm, hnow]
    have hmap : (fun k => if k = ip then some (RateEntry.mk (c + 1) r) else m k) ip =
        some ⟨c + 1, r⟩ := by simp
    obtain ⟨h1, h2⟩ := ih (fun k => if k = ip then some ⟨c + 1, r⟩ else m k) (c + 1) hmap
      (fun t' ht' => hin t' (by simp [ht']))
    refine ⟨?_, ?_⟩
    · simp only [runCalls, hstep, h1, List.length_cons, List.range_succ_eq_map,
        List.map_cons, List.map_map]
      refine congrArg₂ List.cons (decide_eq_decide.mpr (by omega)) ?_
      refine List.map_congr_left fun i _ => ?_
      simp only [Function.comp_apply]
      exact decide_eq_decide.mpr (by omega)
    · simp only [runCalls, hstep, h2, List.length_cons]
      congr 2
      omega

/-- C10: starting a fresh window for an IP (no live entry), every call at a
time within the window (at most `resetAt = t0 + 60000`) is admitted exactly
when it is among the first 30 calls of the window, and refused afterwards;
and whenever a call finds its entry expired (`resetAt < now`), it starts a
fresh window with count 1 and is itself admitted. -/
theorem rateLimiter_window (ip : String) (m : RateMap) (t0 : Nat) (ts : List Nat)
    (h0 : m ip = none) (hin : ∀ t ∈ ts, t0 ≤ t ∧ t ≤ t0 + RATE_WINDOW_MS) :
    (∀ i, ((runCalls ip m (t0 :: ts)).1.getD i true = false ↔ i < 30 ∧ i < ts.length + 1)) ∧
      (∀ (m' : RateMap) (e : RateEntry) (now : Nat), m' ip = some e → e.resetAt < now →
        (isRateLimited ip now m').1 = false ∧
          (isRateLimited ip now m').2 ip = some ⟨1, now + RATE_WINDOW_MS⟩) := by
  constructor
  · intro i
    have hstep : isRateLimited ip t0 m =
        (false, fun k => if k = ip then some ⟨1, t0 + RATE_WINDOW_MS⟩ else m k) := by
      simp [isRateLimited, h0]
    have hmap : (fun k => if k = ip then some (RateEntry.mk 1 (t0 + RATE_WINDOW_MS)) else m k) ip =
        some ⟨1, t0 + RATE_WINDOW_MS⟩ := by simp
    obtain ⟨h1, -⟩ := runCalls_inWindow ip (t0 + RATE_WINDOW_MS) ts
      (fun k => if k = ip then some ⟨1, t0 + RATE_WINDOW_MS⟩ else m k) 1 hmap
      (fun t ht => (hin t ht).2)
    simp only [runCalls, hstep, h1]
    match i with
    | 0 => simp
    | i + 1 =>
      simp only [List.getD, List.get?_cons_succ, List.get?_map]
      rcases Nat.lt_or_ge i ts.length with hi | hi
      · rw [List.get?_range hi]
        simp only [Option.map_some', Option.getD_some, decide_eq_false_iff_not]
        omega
      · rw [List.get?_eq_none.mpr (by simpa using hi)]
        simp only [Option.map_none', Option.getD_none]
        constructor
        · intro h; cases h
        · intro h; omega
  · intro m' e now hm' hexp
    constructor
    · simp [isRateLimited, hm', hexp]
    · simp [isRateLimited, hm', hexp]

theorem rateLimiter_window_witness :
    (runCalls "203.0.113.9" (fun _ => none) (5 :: List.replicate 35 17)).1.getD 29 true = false ∧
      (runCalls "203.0.113.9" (fun _ => none) (5 :: List.replicate 35 17)).1.getD 30 true = true := by
  have h := (rateLimiter_window "203.0.113.9" (fun _ => none) 5 (List.replicate 35 17) rfl
    (by intro t ht; simp only [List.eq_of_mem_replicate ht]; constructor <;> decide)).1
  constructor
  · exact (h 29).mpr ⟨by omega, by rw [List.length_replicate]; omega⟩
  · have h30 := h 30
    cases hb : (runCalls "203.0.113.9" (fun _ => none) (5 :: List.replicate 35 17)).1.getD 30 true with
    | false =>
      have hc := h30.mp hb
      simp [List.length_replicate] at hc
    | true => rfl

/-! ## JSON: the persistence format (`JSON.stringify` / `JSON.parse`)

`getLocalState` returns the `JSON.parse` output without any shape validation
(the TypeScript return type is a cast, not a check), so the load model
returns an untyped `Json` value.  The model covers the JSON fragment the
store can inhabit — null, booleans, integer numbers, strings and objects:

* numbers are integers (the judge contract and the failure sentinel are
  integers; a `WordState` never stores a fractional number);
* `JSON.stringify`'s string escaping is modelled for the two mandatory
  escapes (quote and backslash) and the named control escapes
  (`\n`, `\t`, `\r`, `\b`, `\f`); rarer control characters are emitted
  verbatim;
* arrays and `\u` escapes do not occur in a serialised store and are treated
  by the parser as a parse failure, and whitespace — which `JSON.stringify`
  never emits — is not skipped.
-/

/-- An untyped JSON value (arrays excluded, see the section note). -/
inductive Json where
  | null
  | bool (b : Bool)
  | num (n : Int)
  | str (s : String)
  | obj (fields : List (String × Json))

/-- One character of `JSON.stringify` string output. -/
def escChar (c : Char) : List Char :=
  if c = '"' then ['\\', '"']
  else if c = '\\' then ['\\', '\\']
  else if c = '\n' then ['\\', 'n']
  else if c = '\t' then ['\\', 't']
  else if c = '\r' then ['\\', 'r']
  else if c = Char.ofNat 8 then ['\\', 'b']
  else if c = Char.ofNat 12 then ['\\', 'f']
  else [c]

/-- A string body, escaped character by character. -/
def escList (cs : List Char) : List Char := (cs.map escChar).flatten

/-- A JSON string literal: quote, escaped body, quote. -/
def strChars (s : String) : List Char := '"' :: (escList s.data ++ ['"'])

/-- Decimal digits of a natural number, most significant first. -/
def natChars (n : Nat) : List Char :=
  if _h : n < 10 then [Nat.digitChar n]
  else natChars (n / 10) ++ [Nat.digitChar (n % 10)]
decreasing_by omega

/-- A JSON integer: optional minus sign, then decimal digits. -/
def intChars (i : Int) : List Char :=
  if i < 0 then '-' :: natChars i.natAbs else natChars i.toNat

mutual
/-- `JSON.stringify` on the modelled fragment (no whitespace). -/
def jrender : Json → List Char
  | .null => ['n', 'u', 'l', 'l']
  | .bool b => if b then ['t', 'r', 'u', 'e'] else ['f', 'a', 'l', 's', 'e']
  | .num n => intChars n
  | .str s => strChars s
  | .obj fs => '{' :: (fieldChars fs ++ ['}'])
/-- The members of an object, without the surrounding braces. -/
def fieldChars : List (String × Json) → List Char
  | [] => []
  | (k, v) :: t => strChars k ++ ':' :: (jrender v ++ moreFields t)
/-- Second and later members, each preceded by a comma. -/
def moreFields : List (String × Json) → List Char
  | [] => []
  | (k, v) :: t => ',' :: (strChars k ++ ':' :: (jrender v ++ moreFields t))
end

/-- The numeric value of a digit character. -/
def digitVal (c : Char) : Nat := c.toNat - 48

/-- Consume a run of digits, accumulating their value. -/
def parseDigits : List Char → Nat → Nat × List Char
  | [], acc => (acc, [])
  | c :: cs, acc => if c.isDigit then parseDigits cs (10 * acc + digitVal c) else (acc, c :: cs)

/-- A natural number literal: at least one digit. -/
def parseNatChars : List Char → Option (Nat × List Char)
  | [] => none
  | c :: cs => if c.isDigit then some (parseDigits (c :: cs) 0) else none

/-- A JSON integer literal. -/
def parseIntChars : List Char → Option (Int × List Char)
  | [] => none
  | c :: cs =>
    if c = '-' then (parseNatChars cs).map (fun p => (-(p.1 : Int), p.2))
    else (parseNatChars (c :: cs)).map (fun p => ((p.1 : Int), p.2))

/-- Undo one of the escapes `escChar` can produce. -/
def unescChar (c : Char) : Option Char :=
  if c = '"' then some '"'
  else if c = '\\' then some '\\'
  else if c = 'n' then some '\n'
  else if c = 't' then some '\t'
  else if c = 'r' then some '\r'
  else if c = 'b' then some (Char.ofNat 8)
  else if c = 'f' then some (Char.ofNat 12)
  else none

/-- The body of a string literal after its opening quote, up to and including
the closing quote; returns the unescaped content and the remainder. -/
def parseStrBody : List Char → Option (List Char × List Char)
  | [] => none
  | c :: cs =>
    if c = '"' then some ([], cs)
    else if c = '\\' then
      match cs with
      | [] => none
      | e :: cs2 =>
        match unescChar e, parseStrBody cs2 with
        | some u, some (s, r) => some (u :: s, r)
        | _, _ => none
    else
      match parseStrBody cs with
      | some (s, r) => some (c :: s, r)
      | none => none

/-- A whole string literal. -/
def parseStrLit : List Char → Option (String × List Char)
  | [] => none
  | c :: cs =>
    if c = '"' then (parseStrBody cs).map (fun p => (String.mk p.1, p.2))
    else none

mutual
/-- The value parser; fuel decreases on every recursive call, and
`input length + 1` fuel always suffices since every call consumes at least
one character. -/
def parseVal : Nat → List Char → Option (Json × List Char)
  | 0, _ => none
  | _ + 1, [] => none
  | f + 1, c :: cs =>
    if c = 'n' then
      match cs with
      | 'u' :: 'l' :: 'l' :: r => some (.null, r)
      | _ => none
    else if c = 't' then
      match cs with
      | 'r' :: 'u' :: 'e' :: r => some (.bool true, r)
      | _ => none
    else if c = 'f' then
      match cs with
      | 'a' :: 'l' :: 's' :: 'e' :: r => some (.bool false, r)
      | _ => none
    else if c = '"' then
      (parseStrBody cs).map (fun p => (.str (String.mk p.1), p.2))
    else if c = '{' then
      match cs with
      | '}' :: r => some (.obj [], r)
      | _ =>
        match parseFields f cs with
        | some (fs, r) => some (.obj fs, r)
        | none => none
    else if c = '-' || c.isDigit then
      match parseIntChars (c :: cs) with
      | some (n, r) => some (.num n, r)
      | none => none
    else none
/-- One or more `"key":value` members, consuming the closing brace. -/
def parseFields : Nat → List Char → Option (List (String × Json) × List Char)
  | 0, _ => none
  | f + 1, cs =>
    match parseStrLit cs with
    | none => none
    | some (k, r1) =>
      match r1 with
      | ':' :: r2 =>
        match parseVal f r2 with
        | none => none
        | some (v, r3) =>
          match r3 with
          | ',' :: r4 =>
            match parseFields f r4 with
            | some (fs, r5) => some ((k, v) :: fs, r5)
            | none => none
          | '}' :: r4 => some ([(k, v)], r4)
          | _ => none
      | _ => none
end

/-- `JSON.parse`, total: `none` is the thrown `SyntaxError`; the whole input
must be consumed. -/
def parseJson (s : String) : Option Json :=
  match parseVal (s.data.length + 1) s.data with
  | some (j, []) => some j
  | _ => none

/-- `getLocalState` from `src/app/page.tsx`:

```js
try { return JSON.parse(localStorage.getItem("sat-vocab-state") || "\x7b\x7d"); }
catch { return \x7b\x7d; }
```

The slot is `none` when the key is absent (`getItem` returns `null`, which is
falsy); the empty string is falsy too, so both fall back to parsing the
two-character empty-object text.  The `catch` returns the empty object.  No
shape validation happens: whatever value parses is returned as-is. -/
def getLocalState (slot : Option String) : Json :=
  let raw := match slot with
    | none => String.mk ['{', '}']
    | some s => if s = "" then String.mk ['{', '}'] else s
  match parseJson raw with
  | some j => j
  | none => Json.obj []

/-- The persisted progress store at the TypeScript type:
`Record<string, Record<string, WordState>>`, day key to term to state, with
JS object key order made explicit as association-list order. -/
abbrev Store := List (String × List (String × WordState))

/-- The serialised `phase` strings. -/
def phaseString : Phase → String
  | .define => "define"
  | .revealed => "revealed"
  | .sentence => "sentence"
  | .feedback => "feedback"
  | .dismissed => "dismissed"

/-- Read a phase back from its JSON form. -/
def phaseOfJson : Json → Option Phase
  | .str s =>
    if s = "define" then some .define
    else if s = "revealed" then some .revealed
    else if s = "sentence" then some .sentence
    else if s = "feedback" then some .feedback
    else if s = "dismissed" then some .dismissed
    else none
  | _ => none

/-- `{score, feedback}` as JSON. -/
def dfToJson (fb : DefFeedback) : Json :=
  .obj [("score", .num fb.score), ("feedback", .str fb.feedback)]

/-- Read definition feedback back from its JSON form. -/
def dfOfJson : Json → Option DefFeedback
  | .obj [("score", .num s), ("feedback", .str f)] => some ⟨s, f⟩
  | _ => none

/-- `{score, feedback, improved}` as JSON. -/
def sfToJson (fb : SentFeedback) : Json :=
  .obj [("score", .num fb.score), ("feedback", .str fb.feedback), ("improved", .str fb.improved)]

/-- Read sentence feedback back from its JSON form. -/
def sfOfJson : Json → Option SentFeedback
  | .obj [("score", .num s), ("feedback", .str f), ("improved", .str i)] => some ⟨s, f, i⟩
  | _ => none

/-- Prepend a member when the optional field is present (`JSON.stringify`
omits keys whose value is `undefined`). -/
def optField (k : String) (o : Option Json) (t : List (String × Json)) :
    List (String × Json) :=
  match o with
  | none => t
  | some v => (k, v) :: t

/-- A `WordState` as the JSON object `JSON.stringify` produces, fields in
declaration order, absent fields omitted. -/
def wsToJson (ws : WordState) : Json :=
  .obj (optField "phase" (ws.phase.map (fun p => .str (phaseString p)))
    (optField "userDefinition" (ws.userDefinition.map .str)
      (optField "definitionFeedback" (ws.definitionFeedback.map dfToJson)
        (optField "userSentence" (ws.userSentence.map .str)
          (optField "sentenceFeedback" (ws.sentenceFeedback.map sfToJson) [])))))

/-- Take the leading member when it carries the given key. -/
def popField (k : String) : List (String × Json) → Option Json × List (String × Json)
  | [] => (none, [])
  | (k2, v) :: t => if k2 = k then (some v, t) else (none, (k2, v) :: t)

/-- Read a JSON string. -/
def strOfJson : Json → Option String
  | .str s => some s
  | _ => none

/-- Decode an optional field: an absent field is `none`, a present field must
decode. -/
def optTrav {α : Type} (f : Json → Option α) : Option Json → Option (Option α)
  | none => some none
  | some j => (f j).map some

/-- Read a `WordState` back from its JSON object form. -/
def wsOfJson : Json → Option WordState
  | .obj fs =>
    let r1 := popField "phase" fs
    let r2 := popField "userDefinition" r1.2
    let r3 := popField "definitionFeedback" r2.2
    let r4 := popField "userSentence" r3.2
    let r5 := popField "sentenceFeedback" r4.2
    match r5.2 with
    | _ :: _ => none
    | [] =>
      match optTrav phaseOfJson r1.1, optTrav strOfJson r2.1, optTrav dfOfJson r3.1,
            optTrav strOfJson r4.1, optTrav sfOfJson r5.1 with
      | some p, some ud, some df, some us, some sf => some ⟨p, ud, df, us, sf⟩
      | _, _, _, _, _ => none
  | _ => none

/-- A day's term-to-state map as JSON. -/
def dayToJson (dm : List (String × WordState)) : Json :=
  .obj (dm.map (fun kv => (kv.1, wsToJson kv.2)))

/-- Read a day map's members back. -/
def dayOfFields : List (String × Json) → Option (List (String × WordState))
  | [] => some []
  | (k, v) :: t =>
    match wsOfJson v, dayOfFields t with
    | some ws, some r => some ((k, ws) :: r)
    | _, _ => none

/-- Read a day map back from its JSON form. -/
def dayOfJson : Json → Option (List (String × WordState))
  | .obj fs => dayOfFields fs
  | _ => none

/-- The whole store as the JSON value `JSON.stringify` serialises. -/
def storeToJson (st : Store) : Json :=
  .obj (st.map (fun kv => (kv.1, dayToJson kv.2)))

/-- Read the store's members back. -/
def storeOfFields : List (String × Json) → Option Store
  | [] => some []
  | (k, v) :: t =>
    match dayOfJson v, storeOfFields t with
    | some dm, some r => some ((k, dm) :: r)
    | _, _ => none

/-- Interpret a JSON value as a typed store, if it has the right shape. -/
def storeOfJson : Json → Option Store
  | .obj fs => storeOfFields fs
  | _ => none

/-- `saveLocalState` from `src/app/page.tsx`:
`localStorage.setItem("sat-vocab-state", JSON.stringify(state))` — the slot
content after the save. -/
def saveLocalState (st : Store) : Option String :=
  some (String.mk (jrender (storeToJson st)))

/-! ## The codec round trip: parsing inverts rendering -/

theorem stringMk_data (s : String) : String.mk s.data = s := by
  cases s
  rfl

theorem parseStrBody_quote (r : List Char) : parseStrBody ('"' :: r) = some ([], r) := by
  rw [parseStrBody.eq_def]
  simp

theorem parseStrBody_backslash (e : Char) (r : List Char) :
    parseStrBody ('\\' :: e :: r) =
      match unescChar e, parseStrBody r with
      | some u, some p => some (u :: p.1, p.2)
      | _, _ => none := by
  rw [parseStrBody.eq_def]
  simp only [reduceIte, Char.isValue]
  cases hu : unescChar e with
  | none => simp [hu]
  | some u =>
    cases hp : parseStrBody r with
    | none => simp [hu, hp]
    | some p => simp [hu, hp]

theorem parseStrBody_other (c : Char) (r : List Char) (h1 : ¬ c = '"') (h2 : ¬ c = '\\') :
    parseStrBody (c :: r) =
      match parseStrBody r with
      | some p => some (c :: p.1, p.2)
      | none => none := by
  rw [parseStrBody.eq_def]
  simp only [if_neg h1, if_neg h2]
  cases hp : parseStrBody r with
  | none => simp [hp]
  | some p => simp [hp]

theorem parseStrBody_escChar (c : Char) (r : List Char) :
    parseStrBody (escChar c ++ r) =
      match parseStrBody r with
      | some p => some (c :: p.1, p.2)
      | none => none := by
  simp only [escChar]
  split_ifs with h1 h2 h3 h4 h5 h6 h7
  · subst h1; rw [List.cons_append, List.cons_append, List.nil_append, parseStrBody_backslash]
    cases hp : parseStrBody r <;> simp [unescChar, hp]
  · subst h2; rw [List.cons_append, List.cons_append, List.nil_append, parseStrBody_backslash]
    cases hp : parseStrBody r <;> simp [unescChar, hp]
  · subst h3; rw [List.cons_append, List.cons_append, List.nil_append, parseStrBody_backslash]
    cases hp : parseStrBody r <;> simp [unescChar, hp]
  · subst h4; rw [List.cons_append, List.cons_append, List.nil_append, parseStrBody_backslash]
    cases hp : parseStrBody r <;> simp [unescChar, hp]
  · subst h5; rw [List.cons_append, List.cons_append, List.nil_append, parseStrBody_backslash]
    cases hp : parseStrBody r <;> simp [unescChar, hp]
  · subst h6; rw [List.cons_append, List.cons_append, List.nil_append, parseStrBody_backslash]
    cases hp : parseStrBody r <;> simp [unescChar, hp]
  · subst h7; rw [List.cons_append, List.cons_append, List.nil_append, parseStrBody_backslash]
    cases hp : parseStrBody r <;> simp [unescChar, hp]
  · rw [List.cons_append, List.nil_append, parseStrBody_other c r h1 h2]

theorem parseStrBody_escList (cs : List Char) :
    ∀ r : List Char, parseStrBody (escList cs ++ '"' :: r) = some (cs, r) := by
  induction cs with
  | nil =>
    intro r
    simpa [escList] using parseStrBody_quote r
  | cons c t ih =>
    intro r
    have hsplit : escList (c :: t) = escChar c ++ escList t := by
      simp [escList]
    rw [hsplit, List.append_assoc, parseStrBody_escChar, ih r]

theorem parseStrLit_strChars (s : String) (r : List Char) :
    parseStrLit (strChars s ++ r) = some (s, r) := by
  have h : strChars s ++ r = '"' :: (escList s.data ++ ('"' :: r)) := by
    simp [strChars]
  rw [h]
  simp [parseStrLit, parseStrBody_escList, stringMk_data]

theorem digitChar_facts :
    ∀ d : Nat, d < 10 → (Nat.digitChar d).isDigit = true ∧ digitVal (Nat.digitChar d) = d := by
  decide

/-- `true` when the input cannot extend a digit run: empty or headed by a
non-digit.  Every boundary a rendered value can be followed by (a comma, a
closing brace, end of input) qualifies. -/
def noDigitHead : List Char → Bool
  | [] => true
  | c :: _ => !c.isDigit

theorem parseDigits_stop (r : List Char) (h : noDigitHead r = true) (n : Nat) :
    parseDigits r n = (n, r) := by
  cases r with
  | nil => rfl
  | cons c t =>
    simp only [noDigitHead, Bool.not_eq_true'] at h
    simp [parseDigits, h]

theorem natChars_head (n : Nat) : ∃ c t, natChars n = c :: t ∧ c.isDigit = true := by
  induction n using Nat.strongRecOn with
  | _ n ih =>
    rw [natChars]
    by_cases h : n < 10
    · exact ⟨Nat.digitChar n, [], by simp [h], (digitChar_facts n h).1⟩
    · obtain ⟨c, t, hct, hc⟩ := ih (n / 10) (by omega)
      exact ⟨c, t ++ [Nat.digitChar (n % 10)], by simp [h, hct], hc⟩

theorem parseDigits_natChars (n : Nat) :
    ∀ (acc : Nat) (r : List Char),
      parseDigits (natChars n ++ r) acc = parseDigits r (acc * 10 ^ (natChars n).length + n) := by
  induction n using Nat.strongRecOn with
  | _ n ih =>
    intro acc r
    rw [natChars]
    by_cases h : n < 10
    · simp only [h, dif_pos, List.cons_append, List.nil_append]
      rw [parseDigits, if_pos (digitChar_facts n h).1, (digitChar_facts n h).2]
      have harith : 10 * acc + n = acc * 10 ^ ([Nat.digitChar n].length) + n := by
        simp [pow_one]
        omega
      rw [harith]
    · simp only [h, dif_neg, not_false_iff, List.append_assoc, List.cons_append,
        List.nil_append]
      rw [ih (n / 10) (by omega) acc (Nat.digitChar (n % 10) :: r)]
      have hd := digitChar_facts (n % 10) (by omega)
      rw [parseDigits, if_pos hd.1, hd.2]
      have harith :
          10 * (acc * 10 ^ (natChars (n / 10)).length + n / 10) + n % 10 =
            acc * 10 ^ ((natChars (n / 10)).length + 1) + n := by
        have h1 : 10 * (acc * 10 ^ (natChars (n / 10)).length + n / 10) + n % 10 =
            acc * 10 ^ (natChars (n / 10)).length * 10 + (10 * (n / 10) + n % 10) := by
          ring
        rw [h1, Nat.div_add_mod, pow_succ, Nat.mul_assoc]
      rw [harith]
      have hlen : (natChars (n / 10) ++ [Nat.digitChar (n % 10)]).length =
          (natChars (n / 10)).length + 1 := by simp
      rw [hlen]

theorem parseNatChars_natChars (n : Nat) (r : List Char) (h : noDigitHead r = true) :
    parseNatChars (natChars n ++ r) = some (n, r) := by
  obtain ⟨c, t, hct, hc⟩ := natChars_head n
  rw [hct, List.cons_append, parseNatChars, if_pos hc, ← List.cons_append, ← hct,
    parseDigits_natChars, parseDigits_stop r h]
  simp

theorem isDigit_ne_minus {c : Char} (h : c.isDigit = true) : ¬ c = '-' := by
  intro he
  subst he
  exact absurd h (by decide)

theorem parseIntChars_intChars (i : Int) (r : List Char) (h : noDigitHead r = true) :
    parseIntChars (intChars i ++ r) = some (i, r) := by
  by_cases hneg : i < 0
  · simp only [intChars, if_pos hneg, List.cons_append]
    rw [parseIntChars, if_pos rfl, parseNatChars_natChars i.natAbs r h]
    simp only [Option.map_some']
    congr 2
    omega
  · simp only [intChars, if_neg hneg]
    obtain ⟨c, t, hct, hc⟩ := natChars_head i.toNat
    rw [hct, List.cons_append, parseIntChars, if_neg (isDigit_ne_minus hc),
      ← List.cons_append, ← hct, parseNatChars_natChars i.toNat r h]
    simp only [Option.map_some']
    congr 2
    omega

theorem isDigit_ne_starts {c : Char} (h : c.isDigit = true) :
    ¬ c = 'n' ∧ ¬ c = 't' ∧ ¬ c = 'f' ∧ ¬ c = '"' ∧ ¬ c = '{' := by
  refine ⟨?_, ?_, ?_, ?_, ?_⟩ <;> (intro he; subst he; exact absurd h (by decide))

theorem moreFields_cons (x : String × Json) (t : List (String × Json)) :
    moreFields (x :: t) = ',' :: fieldChars (x :: t) := by
  obtain ⟨k, v⟩ := x
  rw [moreFields, fieldChars]

mutual
theorem rt_val : ∀ (j : Json) (f : Nat) (rest : List Char),
    noDigitHead rest = true → (jrender j).length < f →
    parseVal f (jrender j ++ rest) = some (j, rest)
  | .null, f, rest => by
    intro _ hf
    cases f with
    | zero => exact absurd hf (Nat.not_lt_zero _)
    | succ f =>
      rw [show jrender Json.null ++ rest = 'n' :: 'u' :: 'l' :: 'l' :: rest from by
        simp [jrender]]
      simp [parseVal]
  | .bool true, f, rest => by
    intro _ hf
    cases f with
    | zero => exact absurd hf (Nat.not_lt_zero _)
    | succ f =>
      rw [show jrender (Json.bool true) ++ rest = 't' :: 'r' :: 'u' :: 'e' :: rest from by
        simp [jrender]]
      simp [parseVal]
  | .bool false, f, rest => by
    intro _ hf
    cases f with
    | zero => exact absurd hf (Nat.not_lt_zero _)
    | succ f =>
      rw [show jrender (Json.bool false) ++ rest = 'f' :: 'a' :: 'l' :: 's' :: 'e' :: rest from by
        simp [jrender]]
      simp [parseVal]
  | .str s, f, rest => by
    intro _ hf
    cases f with
    | zero => exact absurd hf (Nat.not_lt_zero _)
    | succ f =>
      rw [show jrender (Json.str s) ++ rest = '"' :: (escList s.data ++ ('"' :: rest)) from by
        simp [jrender, strChars]]
      simp [parseVal, parseStrBody_escList, stringMk_data]
  | .num n, f, rest => by
    intro hnd hf
    cases f with
    | zero => exact absurd hf (Nat.not_lt_zero _)
    | succ f =>
      by_cases hneg : n < 0
      · rw [show jrender (Json.num n) ++ rest = '-' :: (natChars n.natAbs ++ rest) from by
          simp [jrender, intChars, hneg]]
        have hp : parseIntChars ('-' :: (natChars n.natAbs ++ rest)) = some (n, rest) := by
          rw [show '-' :: (natChars n.natAbs ++ rest) = intChars n ++ rest from by
            simp [intChars, hneg]]
          exact parseIntChars_intChars n rest hnd
        simp [parseVal, hp]
      · obtain ⟨c, t, hct, hc⟩ := natChars_head n.toNat
        obtain ⟨hn, ht, hff, hq, hb⟩ := isDigit_ne_starts hc
        have harg : jrender (Json.num n) ++ rest = c :: (t ++ rest) := by
          simp [jrender, intChars, hneg, hct]
        rw [harg]
        have hp : parseIntChars (c :: (t ++ rest)) = some (n, rest) := by
          rw [show c :: (t ++ rest) = intChars n ++ rest from by
            simp [intChars, hneg, hct]]
          exact parseIntChars_intChars n rest hnd
        simp [parseVal, hn, ht, hff, hq, hb, hc, hp]
  | .obj [], f, rest => by
    intro _ hf
    cases f with
    | zero => exact absurd hf (Nat.not_lt_zero _)
    | succ f =>
      rw [show jrender (Json.obj []) ++ rest = '{' :: '}' :: rest from by
        simp [jrender, fieldChars]]
      simp [parseVal]
  | .obj (kv :: t), f, rest => by
    intro _ hf
    cases f with
    | zero => exact absurd hf (Nat.not_lt_zero _)
    | succ f =>
      obtain ⟨k, v⟩ := kv
      have hbound : (fieldChars ((k, v) :: t)).length + 1 < f := by
        simp only [jrender, List.length_cons, List.length_append] at hf
        omega
      have hfields := rt_fields (k, v) t f rest hbound
      have harg : jrender (Json.obj ((k, v) :: t)) ++ rest =
          '{' :: (fieldChars ((k, v) :: t) ++ '}' :: rest) := by
        simp [jrender]
      have hhead : fieldChars ((k, v) :: t) ++ '}' :: rest =
          '"' :: (escList k.data ++
            ('"' :: (':' :: (jrender v ++ (moreFields t ++ '}' :: rest))))) := by
        simp [fieldChars, strChars]
      rw [harg]
      simp only [parseVal]
      rw [hhead]
      have hfields2 : parseFields f ('"' :: (escList k.data ++
          ('"' :: (':' :: (jrender v ++ (moreFields t ++ '}' :: rest)))))) =
          some ((k, v) :: t, rest) := by
        rw [← hhead]
        exact hfields
      simp [hfields2]
theorem rt_fields : ∀ (kv : String × Json) (t : List (String × Json)) (f : Nat)
    (rest : List Char),
    (fieldChars (kv :: t)).length + 1 < f →
    parseFields f (fieldChars (kv :: t) ++ '}' :: rest) = some (kv :: t, rest)
  | (k, v), [], f, rest => by
    intro hf
    cases f with
    | zero => exact absurd hf (Nat.not_lt_zero _)
    | succ f =>
      have hbound : (jrender v).length < f := by
        simp only [fieldChars, moreFields, strChars, List.length_cons, List.length_append,
          List.append_nil] at hf
        omega
      have hv := rt_val v f ('}' :: rest) (by simp [noDigitHead]) hbound
      have harg : fieldChars ((k, v) :: []) ++ '}' :: rest =
          strChars k ++ (':' :: (jrender v ++ '}' :: rest)) := by
        simp [fieldChars, moreFields]
      rw [harg]
      simp only [parseFields]
      rw [parseStrLit_strChars k (':' :: (jrender v ++ '}' :: rest))]
      simp only [hv]
  | (k, v), x :: t', f, rest => by
    intro hf
    cases f with
    | zero => exact absurd hf (Nat.not_lt_zero _)
    | succ f =>
      have hlen : (fieldChars ((k, v) :: x :: t')).length =
          (strChars k).length + 1 + (jrender v).length + 1 + (fieldChars (x :: t')).length := by
        rw [fieldChars, moreFields_cons]
        simp only [List.length_append, List.length_cons]
        omega
      have hbound1 : (jrender v).length < f := by
        have : (strChars k).length = (escList k.data).length + 2 := by simp [strChars]
        omega
      have hbound2 : (fieldChars (x :: t')).length + 1 < f := by
        have : (strChars k).length = (escList k.data).length + 2 := by simp [strChars]
        omega
      have hv := rt_val v f (',' :: (fieldChars (x :: t') ++ '}' :: rest))
        (by simp [noDigitHead]) hbound1
      have hrest := rt_fields x t' f rest hbound2
      have harg : fieldChars ((k, v) :: x :: t') ++ '}' :: rest =
          strChars k ++ (':' :: (jrender v ++
            (',' :: (fieldChars (x :: t') ++ '}' :: rest)))) := by
        rw [fieldChars, moreFields_cons]
        simp
      rw [harg]
      simp only [parseFields]
      rw [parseStrLit_strChars k
        (':' :: (jrender v ++ (',' :: (fieldChars (x :: t') ++ '}' :: rest))))]
      simp only [hv, hrest]
end

theorem parseJson_jrender (j : Json) : parseJson (String.mk (jrender j)) = some j := by
  have hdata : (String.mk (jrender j)).data = jrender j := rfl
  have hv := rt_val j ((jrender j).length + 1) [] rfl (by omega)
  rw [List.append_nil] at hv
  rw [parseJson, hdata, hv]

theorem phase_roundTrip (p : Phase) : phaseOfJson (Json.str (phaseString p)) = some p := by
  cases p <;> rfl

theorem df_roundTrip (fb : DefFeedback) : dfOfJson (dfToJson fb) = some fb := by
  obtain ⟨s, f⟩ := fb
  rfl

theorem sf_roundTrip (fb : SentFeedback) : sfOfJson (sfToJson fb) = some fb := by
  obtain ⟨s, f, i⟩ := fb
  rfl

theorem ws_roundTrip (ws : WordState) : wsOfJson (wsToJson ws) = some ws := by
  obtain ⟨p, ud, df, us, sf⟩ := ws
  have k1 : ¬ ("userDefinition" : String) = "phase" := by decide
  have k2 : ¬ ("definitionFeedback" : String) = "phase" := by decide
  have k3 : ¬ ("userSentence" : String) = "phase" := by decide
  have k4 : ¬ ("sentenceFeedback" : String) = "phase" := by decide
  have k5 : ¬ ("definitionFeedback" : String) = "userDefinition" := by decide
  have k6 : ¬ ("userSentence" : String) = "userDefinition" := by decide
  have k7 : ¬ ("sentenceFeedback" : String) = "userDefinition" := by decide
  have k8 : ¬ ("userSentence" : String) = "definitionFeedback" := by decide
  have k9 : ¬ ("sentenceFeedback" : String) = "definitionFeedback" := by decide
  have k10 : ¬ ("sentenceFeedback" : String) = "userSentence" := by decide
  cases p <;> cases ud <;> cases df <;> cases us <;> cases sf <;>
    simp [wsToJson, wsOfJson, optField, popField, optTrav, strOfJson,
      phase_roundTrip, df_roundTrip, sf_roundTrip, k1, k2, k3, k4, k5, k6, k7, k8, k9, k10]

theorem dayOfFields_roundTrip (dm : List (String × WordState)) :
    dayOfFields (dm.map (fun kv => (kv.1, wsToJson kv.2))) = some dm := by
  induction dm with
  | nil => rfl
  | cons kv t ih =>
    obtain ⟨k, ws⟩ := kv
    rw [List.map_cons, dayOfFields.eq_def]
    simp [ws_roundTrip, ih]

theorem day_roundTrip (dm : List (String × WordState)) :
    dayOfJson (dayToJson dm) = some dm := by
  have h : dayOfJson (dayToJson dm) =
      dayOfFields (dm.map (fun kv => (kv.1, wsToJson kv.2))) := rfl
  rw [h, dayOfFields_roundTrip]

theorem storeOfFields_roundTrip (st : Store) :
    storeOfFields (st.map (fun kv => (kv.1, dayToJson kv.2))) = some st := by
  induction st with
  | nil => rfl
  | cons kv t ih =>
    obtain ⟨k, dm⟩ := kv
    rw [List.map_cons, storeOfFields.eq_def]
    simp [day_roundTrip, ih]

theorem store_roundTrip (st : Store) : storeOfJson (storeToJson st) = some st := by
  have h : storeOfJson (storeToJson st) =
      storeOfFields (st.map (fun kv => (kv.1, dayToJson kv.2))) := rfl
  rw [h, storeOfFields_roundTrip]

/-- C7: saving the progress store and loading it back yields the very value
saved: the loaded JSON is exactly the JSON image of the saved store, and
reading it at the store type recovers the store itself — for every store
value, including ones with absent optional fields, escapes in strings, and
negative or out-of-range scores. -/
theorem saveLoad_roundTrip (st : Store) :
    getLocalState (saveLocalState st) = storeToJson st ∧
      storeOfJson (getLocalState (saveLocalState st)) = some st := by
  have hne : String.mk (jrender (storeToJson st)) ≠ "" := by
    have hxs : jrender (storeToJson st) =
        '{' :: (fieldChars (st.map (fun kv => (kv.1, dayToJson kv.2))) ++ ['}']) := by
      simp [storeToJson, jrender]
    intro h
    have hd : jrender (storeToJson st) = [] := congrArg String.data h
    rw [hxs] at hd
    exact absurd hd (by simp)
  have hfirst : getLocalState (saveLocalState st) = storeToJson st := by
    simp only [saveLocalState, getLocalState]
    rw [if_neg hne, parseJson_jrender]
  exact ⟨hfirst, by rw [hfirst]; exact store_roundTrip st⟩

/-- C6, counterexample: the persisted blob `"5"` is valid JSON, so
`JSON.parse` succeeds and `getLocalState` returns the number `5` as-is —
a value that is not a store (it cannot be read at the store type) and is not
the empty-store fallback either.  The claim that loading "returns a store"
for every persisted blob therefore fails for parseable non-store blobs. -/
theorem getLocalState_nonstore_counterexample :
    getLocalState (some "5") = Json.num 5 ∧ storeOfJson (Json.num 5) = none ∧
      Json.num 5 ≠ Json.obj [] := by
  refine ⟨rfl, rfl, ?_⟩
  intro h
  exact Json.noConfusion h

/-- C6, amended: loading never signals an error — `getLocalState` is total.
A missing blob loads as the empty object, an unparseable blob degrades to
the empty object, and a parseable blob is returned exactly as parsed,
without any shape validation. -/
theorem getLocalState_never_throws :
    getLocalState none = Json.obj [] ∧
      (∀ s, parseJson s = none → getLocalState (some s) = Json.obj []) ∧
      (∀ s j, parseJson s = some j → getLocalState (some s) = j) := by
  refine ⟨rfl, ?_, ?_⟩
  · intro s h
    by_cases hs : s = ""
    · subst hs
      rfl
    · simp only [getLocalState]
      rw [if_neg hs, h]
  · intro s j h
    by_cases hs : s = ""
    · subst hs
      rw [show parseJson "" = none from rfl] at h
      exact absurd h (by simp)
    · simp only [getLocalState]
      rw [if_neg hs, h]

theorem getLocalState_never_throws_witness :
    (parseJson "oops" = none ∧ getLocalState (some "oops") = Json.obj []) ∧
      (parseJson "5" = some (Json.num 5) ∧ getLocalState (some "5") = Json.num 5) :=
  ⟨⟨rfl, getLocalState_never_throws.2.1 "oops" rfl⟩,
    ⟨rfl, getLocalState_never_throws.2.2 "5" (Json.num 5) rfl⟩⟩

end SatVocab
